import Mathlib

/-!
Verification of the tool-api OpenAPI-to-Tool-Handle generator.

The TypeScript sources are shallowly embedded: raw document nodes become a
`Json` value type whose objects are association lists in insertion order
(mirroring JS object key order), and each relevant function of the source is
translated definition by definition. External collaborators (the tool-json
tree-shaker, the tool-uri template expander, the tool-query formatter) are
taken as function parameters of the embedded definitions.
-/

namespace ToolApi

/-- A JSON value as the TypeScript code manipulates it. An object is its
field list in insertion order, matching `Object.entries` iteration order. -/
inductive Json where
  | null : Json
  | bool : Bool → Json
  | num : Int → Json
  | str : String → Json
  | arr : List Json → Json
  | obj : List (String × Json) → Json
deriving Repr

mutual

/-- Decidable structural equality of JSON values. -/
def Json.decEq : (a b : Json) → Decidable (a = b)
  | .null, .null => isTrue rfl
  | .bool a, .bool b =>
    if h : a = b then isTrue (h ▸ rfl) else isFalse fun e => h (Json.bool.inj e)
  | .num a, .num b =>
    if h : a = b then isTrue (h ▸ rfl) else isFalse fun e => h (Json.num.inj e)
  | .str a, .str b =>
    if h : a = b then isTrue (h ▸ rfl) else isFalse fun e => h (Json.str.inj e)
  | .arr a, .arr b =>
    match Json.decEqList a b with
    | isTrue h => isTrue (h ▸ rfl)
    | isFalse h => isFalse fun e => h (Json.arr.inj e)
  | .obj a, .obj b =>
    match Json.decEqFields a b with
    | isTrue h => isTrue (h ▸ rfl)
    | isFalse h => isFalse fun e => h (Json.obj.inj e)
  | .null, .bool _ => isFalse fun h => Json.noConfusion h
  | .null, .num _ => isFalse fun h => Json.noConfusion h
  | .null, .str _ => isFalse fun h => Json.noConfusion h
  | .null, .arr _ => isFalse fun h => Json.noConfusion h
  | .null, .obj _ => isFalse fun h => Json.noConfusion h
  | .bool _, .null => isFalse fun h => Json.noConfusion h
  | .bool _, .num _ => isFalse fun h => Json.noConfusion h
  | .bool _, .str _ => isFalse fun h => Json.noConfusion h
  | .bool _, .arr _ => isFalse fun h => Json.noConfusion h
  | .bool _, .obj _ => isFalse fun h => Json.noConfusion h
  | .num _, .null => isFalse fun h => Json.noConfusion h
  | .num _, .bool _ => isFalse fun h => Json.noConfusion h
  | .num _, .str _ => isFalse fun h => Json.noConfusion h
  | .num _, .arr _ => isFalse fun h => Json.noConfusion h
  | .num _, .obj _ => isFalse fun h => Json.noConfusion h
  | .str _, .null => isFalse fun h => Json.noConfusion h
  | .str _, .bool _ => isFalse fun h => Json.noConfusion h
  | .str _, .num _ => isFalse fun h => Json.noConfusion h
  | .str _, .arr _ => isFalse fun h => Json.noConfusion h
  | .str _, .obj _ => isFalse fun h => Json.noConfusion h
  | .arr _, .null => isFalse fun h => Json.noConfusion h
  | .arr _, .bool _ => isFalse fun h => Json.noConfusion h
  | .arr _, .num _ => isFalse fun h => Json.noConfusion h
  | .arr _, .str _ => isFalse fun h => Json.noConfusion h
  | .arr _, .obj _ => isFalse fun h => Json.noConfusion h
  | .obj _, .null => isFalse fun h => Json.noConfusion h
  | .obj _, .bool _ => isFalse fun h => Json.noConfusion h
  | .obj _, .num _ => isFalse fun h => Json.noConfusion h
  | .obj _, .str _ => isFalse fun h => Json.noConfusion h
  | .obj _, .arr _ => isFalse fun h => Json.noConfusion h

/-- Decidable equality of JSON value lists. -/
def Json.decEqList : (a b : List Json) → Decidable (a = b)
  | [], [] => isTrue rfl
  | [], _ :: _ => isFalse fun h => List.noConfusion h
  | _ :: _, [] => isFalse fun h => List.noConfusion h
  | x :: xs, y :: ys =>
    match Json.decEq x y, Json.decEqList xs ys with
    | isTrue h1, isTrue h2 => isTrue (by rw [h1, h2])
    | isFalse h1, _ => isFalse fun e => h1 (List.cons.inj e).1
    | _, isFalse h2 => isFalse fun e => h2 (List.cons.inj e).2

/-- Decidable equality of JSON field lists. -/
def Json.decEqFields : (a b : List (String × Json)) → Decidable (a = b)
  | [], [] => isTrue rfl
  | [], _ :: _ => isFalse fun h => List.noConfusion h
  | _ :: _, [] => isFalse fun h => List.noConfusion h
  | (s, x) :: xs, (t, y) :: ys =>
    if h0 : s = t then
      match Json.decEq x y, Json.decEqFields xs ys with
      | isTrue h1, isTrue h2 => isTrue (by rw [h0, h1, h2])
      | isFalse h1, _ => isFalse fun e => h1 (congrArg Prod.snd (List.cons.inj e).1)
      | _, isFalse h2 => isFalse fun e => h2 (List.cons.inj e).2
    else isFalse fun e => h0 (congrArg Prod.fst (List.cons.inj e).1)

end

instance : DecidableEq Json := Json.decEq

/-- tool-json `isObject`: a non-null, non-array object. -/
def Json.isObj : Json → Bool
  | .obj _ => true
  | _ => false

/-- The own enumerable entries of a value, `[]` when it is not an object. -/
def Json.fields : Json → List (String × Json)
  | .obj fs => fs
  | _ => []

/-- First binding of a key in an association list (JS objects are key-unique,
so first binding is the binding). -/
def lookupField : List (String × Json) → String → Option Json
  | [], _ => none
  | e :: fs, k => if e.1 = k then some e.2 else lookupField fs k

/-- JS property access `node[key]`; `none` models `undefined`. -/
def Json.get? (j : Json) (k : String) : Option Json :=
  lookupField j.fields k

/-- A string-valued field; `none` when absent or not a string. -/
def Json.getStr (j : Json) (k : String) : Option String :=
  match j.get? k with
  | some (.str s) => some s
  | _ => none

/-- JS assignment `o[k] = v` on an object: overwrite in place when the key
exists (property order keeps the first definition's position), else append. -/
def assocSet {α : Type} : List (String × α) → String → α → List (String × α)
  | [], k, v => [(k, v)]
  | e :: fs, k, v => if e.1 = k then (e.1, v) :: fs else e :: assocSet fs k v

/-- Spreading `...extra` after `base` in a JS object literal. -/
def spreadInto (base : List (String × Json)) : List (String × Json) → List (String × Json)
  | [] => base
  | e :: es => spreadInto (assocSet base e.1 e.2) es

/-! ## Document graph: `ApiPathItem.operations` (api.ts)

A path item is modelled by its raw entry list; the `$ref` resolution chain
(`pathItem.resolved`, `resolved.resolved`, ...) is modelled as the list of
entry lists from the current item outward. The source walks this chain with
a do-while loop; a resolved document yields a finite chain. -/

/-- One raw path-item node: its own entries in document order. -/
abbrev PathItemEntries := List (String × Json)

/-- The `OPERATIONS` key table of api.ts. The source tests `key in
OPERATIONS`, which in JS would also admit keys inherited from
`Object.prototype`; the 3.1 validator rejects such keys as path-item
fields, so over validated documents membership in this list is exact. -/
def OPERATIONS : List String :=
  ["get", "put", "post", "delete", "options", "head", "patch", "trace"]

/-- The inner entry loop of `ApiPathItem.operations`: skip keys that are not
HTTP methods or were already yielded, otherwise yield and mark seen. Returns
the updated seen set and the yielded (method, operation node) pairs. -/
def collectOps (seen : List String) : PathItemEntries → List String × List (String × Json)
  | [] => (seen, [])
  | (k, v) :: es =>
    if k ∈ OPERATIONS ∧ k ∉ seen then
      let r := collectOps (k :: seen) es
      (r.1, (k, v) :: r.2)
    else
      collectOps seen es

/-- The do-while loop of `ApiPathItem.operations` over the resolution chain. -/
def operationsChain (seen : List String) : List PathItemEntries → List (String × Json)
  | [] => []
  | node :: rest =>
    let r := collectOps seen node
    r.2 ++ operationsChain r.1 rest

/-- `pathItem.operations()` over a resolution chain (closest item first). -/
def pathItemOperations (chain : List PathItemEntries) : List (String × Json) :=
  operationsChain [] chain

/-- First binding of a key along a resolution chain: the binding in the
closest path item that has the key at all. -/
def chainLookup : List PathItemEntries → String → Option Json
  | [], _ => none
  | node :: rest, k =>
    match lookupField node k with
    | some v => some v
    | none => chainLookup rest k

/-! ## Document graph: `ApiOperation.allParameters` (api.ts)

A parameter node is its raw (reference-resolved) JSON object. `name` and
`in` are string fields for every document the 3.1 validator accepts
(parameter.ts parses both with `parseString`), so the `===` comparisons of
`hasParameter` are modelled on the optional string fields. -/

/-- `parameter.name`. -/
def paramName (p : Json) : Option String := p.getStr "name"

/-- `parameter.in`. -/
def paramIn (p : Json) : Option String := p.getStr "in"

/-- The `(name, location)` key that defines parameter uniqueness. -/
def paramKey (p : Json) : Option String × Option String := (paramName p, paramIn p)

/-- `hasParameter` of api.ts: does the list hold a parameter with this
`name` and `location`? -/
def hasParameter (parameters : List Json) (name location : Option String) : Bool :=
  parameters.any fun q => paramName q = name ∧ paramIn q = location

/-- The path-item half of `allParameters`: each path-item parameter is
appended unless a parameter with the same key was already accumulated. -/
def addPathItemParams (acc : List Json) : List Json → List Json
  | [] => acc
  | p :: ps =>
    if hasParameter acc (paramName p) (paramIn p) then
      addPathItemParams acc ps
    else
      addPathItemParams (acc ++ [p]) ps

/-- `ApiOperation.allParameters`: the operation's own parameters (when the
field is defined) followed by the deduplicated path-item parameters. -/
def allParameters (opParams pathItemParams : Option (List Json)) : List Json :=
  let parameters := match opParams with
    | some ps => ps
    | none => []
  match pathItemParams with
  | some ps => addPathItemParams parameters ps
  | none => parameters

/-! ## Request Template Synthesizer: `generateApiHandleRequest` (handle/request.ts)

The operation is modelled by the data the generator reads from the document
graph. External collaborators are parameters of the embedding:
`expandUri` stands for tool-uri's `expandUriTemplate` and `treeShake` for
tool-json's `treeShakeReferences` (returning the rewritten roots and the
optional `$defs` map). -/

/-- The slice of an `ApiOperation` consumed by handle generation. `key` is
the path-item field name (HTTP method key) and `path` the paths key. The
`servers` accessors of the operation, its path item and the API are carried
as the optional raw arrays they return. -/
structure OperationModel where
  key : String
  path : String
  operationId : Option String
  opParameters : Option (List Json)
  pathItemParameters : Option (List Json)
  requestBody : Option Json
  servers : Option (List Json)
  pathItemServers : Option (List Json)
  apiServers : Option (List Json)

/-- JS `String.prototype.toUpperCase` on the ASCII method keys. -/
def jsToUpperCase (s : String) : String := String.mk (s.data.map Char.toUpper)

/-- `ApiOperation.method`: the uppercased method key. -/
def OperationModel.method (op : OperationModel) : String := jsToUpperCase op.key

/-- `ApiOperation.allParameters` for the modelled operation. -/
def OperationModel.allParams (op : OperationModel) : List Json :=
  allParameters op.opParameters op.pathItemParameters

/-- `parameter.name!` used as an object key and template value: the string
name (every validated parameter's `name` is a string; an absent name would
coerce to the JS key `"undefined"`). -/
def jsName (p : Json) : String :=
  match paramName p with
  | some s => s
  | none => "undefined"

/-- The mutable locals of the parameter-extraction loop. `query`, `headers`
and `cookies` model the `Record<string, unknown>` templates (`none` while
still `undefined`), `required` the required-name list, `paramIndex` the
name-to-root-index record and `schemaRoots` the collected schema roots. -/
structure ParamState where
  query : Option (List (String × Json))
  headers : Option (List (String × Json))
  cookies : Option (List (String × Json))
  required : Option (List String)
  paramIndex : List (String × Nat)
  schemaRoots : List Json
  body : Option Json

/-- The state before the loop runs. -/
def initParamState : ParamState :=
  ⟨none, none, none, none, [], [], none⟩

/-- One iteration of the parameter-extraction loop of
`generateApiHandleRequest`: parameters without an object-valued schema are
skipped; a parameter description overrides the schema description; the
location decides the template slot; required names, the parameter index and
the schema root are recorded. -/
def processParameter (st : ParamState) (p : Json) : ParamState :=
  match p.get? "schema" with
  | some (Json.obj sfields) =>
    let parameterSchema := match p.get? "description" with
      | some d => Json.obj (assocSet sfields "description" d)
      | none => Json.obj sfields
    let name := jsName p
    let st :=
      if paramIn p = some "query" then
        { st with query := some (assocSet (st.query.getD []) name (Json.obj [("$", Json.str name)])) }
      else if paramIn p = some "header" then
        { st with headers := some (assocSet (st.headers.getD []) name (Json.obj [("$", Json.str name)])) }
      else if paramIn p = some "path" then
        st
      else if paramIn p = some "cookie" then
        { st with cookies := some (assocSet (st.cookies.getD []) name (Json.obj [("$", Json.str name)])) }
      else
        st
    let st :=
      if p.get? "required" = some (Json.bool true) then
        { st with required := some (st.required.getD [] ++ [name]) }
      else
        st
    { st with
      paramIndex := assocSet st.paramIndex name st.schemaRoots.length
      schemaRoots := st.schemaRoots ++ [parameterSchema] }
  | _ => st

/-- The body-slot key candidates `"body"`, `"body1"`, `"body2"`, ... -/
def bodyCandidate : Nat → String
  | 0 => "body"
  | Nat.succ n => "body" ++ toString (n + 1)

/-- The body-key search loop: the first candidate key that does not collide
with a parameter name (among `taken.length + 1` candidates one is always
free, so the fallback branch is unreachable). -/
def freshBodyKey (taken : List String) : String :=
  match (List.range (taken.length + 1)).find? (fun i => !(taken.contains (bodyCandidate i))) with
  | some i => bodyCandidate i
  | none => bodyCandidate (taken.length + 1)

/-- The supported body encodings by media type. -/
def encodeOfMediaType : String → Option String
  | "application/json" => some "json"
  | "application/x-www-form-urlencoded" => some "urlencoded"
  | "multipart/form-data" => some "multipart"
  | _ => none

/-- The content-type loop of the request-body phase: content types whose
schema is not an object value are skipped, the request-body description
overrides the schema description, unsupported media types are skipped, and
the loop breaks at the first supported match, returning the encoding name
and the schema to push. -/
def selectBodyContent (rbDescription : Option Json) :
    List (String × Json) → Option (String × Json)
  | [] => none
  | (mediaType, node) :: rest =>
    match node.get? "schema" with
    | some (Json.obj sfields) =>
      let contentSchema := match rbDescription with
        | some d => Json.obj (assocSet sfields "description" d)
        | none => Json.obj sfields
      match encodeOfMediaType mediaType with
      | some enc => some (enc, contentSchema)
      | none => selectBodyContent rbDescription rest
    | _ => selectBodyContent rbDescription rest

/-- The request-body phase of `generateApiHandleRequest`: pick a fresh body
key, scan the content types, and on a match record the body template, the
required entry, the parameter index and the schema root. -/
def processBody (st : ParamState) : Option Json → ParamState
  | none => st
  | some rb =>
    let bodyKey := freshBodyKey (st.paramIndex.map (·.1))
    let content := ((rb.get? "content").getD Json.null).fields
    match selectBodyContent (rb.get? "description") content with
    | none => st
    | some (enc, contentSchema) =>
      let st := { st with body := some (Json.obj [("$", Json.str bodyKey), ("encode", Json.str enc)]) }
      let st :=
        if rb.get? "required" = some (Json.bool true) then
          { st with required := some (st.required.getD [] ++ [bodyKey]) }
        else
          st
      { st with
        paramIndex := assocSet st.paramIndex bodyKey st.schemaRoots.length
        schemaRoots := st.schemaRoots ++ [contentSchema] }

/-- The parameter phase of `generateApiHandleRequest` over `allParameters`. -/
def requestParamState (op : OperationModel) : ParamState :=
  op.allParams.foldl processParameter initParamState

/-- The parameter and body phases together. -/
def requestFullState (op : OperationModel) : ParamState :=
  processBody (requestParamState op) op.requestBody

/-- The `properties` record: one entry per recorded parameter index, in
insertion order, holding the tree-shaken root at the recorded position
(`none` while no parameter was recorded). -/
def buildProperties (paramIndex : List (String × Nat)) (tsRoots : List Json) :
    Option (List (String × Json)) :=
  match paramIndex with
  | [] => none
  | _ => some (paramIndex.map (fun e => (e.1, tsRoots.getD e.2 Json.null)))

/-- The server-selection step: the explicit option server, else the first
defined `servers` array along operation → path item → API; an undefined or
empty result throws `ApiError("No servers defined for operation")`. -/
def selectServer (optServer : Option Json)
    (opServers pathItemServers apiServers : Option (List Json)) : Except String Json :=
  match optServer with
  | some s => Except.ok s
  | none =>
    match (opServers.orElse fun _ => (pathItemServers.orElse fun _ => apiServers)) with
    | none => Except.error "No servers defined for operation"
    | some servers =>
      match servers with
      | [] => Except.error "No servers defined for operation"
      | s :: _ => Except.ok s

/-- `server.url` (a string on every validated server object). -/
def serverUrlField (server : Json) : String :=
  match server.getStr "url" with
  | some s => s
  | none => "undefined"

/-- The server-URL expansion step: when the server defines `variables`, the
URL template is expanded substituting each variable's `default`. -/
def expandServerUrl (expandUri : String → (String → Option Json) → String)
    (server : Json) : String :=
  match server.get? "variables" with
  | some vars => expandUri (serverUrlField server)
      (fun varname => (vars.get? varname).bind fun v => v.get? "default")
  | none => serverUrlField server

/-- The URL-construction step: server URL plus path, with a URI-template
query expansion listing the query template's keys appended when query
parameters exist — associative when the URL already contains `?`,
form-style otherwise. -/
def buildUrl (serverUrl path : String) (query : Option (List (String × Json))) : String :=
  let url := serverUrl ++ path
  match query with
  | none => url
  | some q =>
    let vars := String.intercalate "," (q.map (·.1))
    if url.data.contains '?' then url ++ "\x7b&" ++ vars ++ "\x7d"
    else url ++ "\x7b?" ++ vars ++ "\x7d"

/-- The generated parameters schema and request template. -/
structure HandleRequest where
  parameters : Json
  request : Json
deriving Repr, DecidableEq

/-- The `parameters` object literal of the returned handle request. -/
def assembleParameters (properties : Option (List (String × Json)))
    (required : Option (List String)) (defs : Option Json) : Json :=
  Json.obj
    ([("type", Json.str "object")]
      ++ (match properties with
        | some ps => [("properties", Json.obj ps)]
        | none => [])
      ++ (match required with
        | some rs => [("required", Json.arr (rs.map Json.str))]
        | none => [])
      ++ (match defs with
        | some d => [("$defs", d)]
        | none => []))

/-- The `request` object literal of the returned handle request. The source
computes a `cookies` record but its spread into this literal is commented
out, so cookie slots are never emitted. -/
def assembleRequest (method url : String) (headers : Option (List (String × Json)))
    (body : Option Json) : Json :=
  Json.obj
    ([("method", Json.str method), ("url", Json.obj [("$uri", Json.str url)])]
      ++ (match headers with
        | some hs => [("headers", Json.obj hs)]
        | none => [])
      ++ (match body with
        | some b => [("body", b)]
        | none => []))

/-- `generateApiHandleRequest` of handle/request.ts. -/
def generateApiHandleRequest
    (expandUri : String → (String → Option Json) → String)
    (treeShake : List Json → List Json × Option Json)
    (op : OperationModel) (optServer : Option Json) : Except String HandleRequest :=
  let st := requestFullState op
  let ts := treeShake st.schemaRoots
  let properties := buildProperties st.paramIndex ts.1
  match selectServer optServer op.servers op.pathItemServers op.apiServers with
  | Except.error e => Except.error e
  | Except.ok server =>
    let url := buildUrl (expandServerUrl expandUri server) op.path st.query
    Except.ok
      { parameters := assembleParameters properties st.required ts.2
        request := assembleRequest op.method url st.headers st.body }

/-! ## Handle Assembler: `generateApiHandle` name derivation (handle/generate.ts) -/

/-- A character kept by the name sanitizer: `[a-zA-Z0-9_-]`. -/
def isNameChar (c : Char) : Bool :=
  ('a' ≤ c ∧ c ≤ 'z') ∨ ('A' ≤ c ∧ c ≤ 'Z') ∨ ('0' ≤ c ∧ c ≤ '9') ∨ c = '_' ∨ c = '-'

/-- `name.replace(/[^a-zA-Z0-9_-]/g, "_")`. -/
def sanitizeName (s : String) : String :=
  String.mk (s.data.map fun c => if isNameChar c then c else '_')

/-- The name-derivation step of `generateApiHandle`: `operationId`, else
`method + " " + path` (a string, since `method` and `path` are strings),
then the undefined check and the sanitizer. -/
def generateApiHandleName (operationId : Option String) (method path : String) :
    Except String String :=
  let name : Option String := operationId.orElse fun _ => some (method ++ " " ++ path)
  match name with
  | none => Except.error "Unnamed operation"
  | some n => Except.ok (sanitizeName n)

/-! ## Schema-to-Template engine (handle/schema.ts)

Reference targets (`getReference(context, node)?.target`) are modelled by a
lookup function `ref : Json → Option Json`; the tool-query formatting
pipeline (`formatQuery`/`createQuery`/selectors) by a `QueryFmt` record of
formatting functions. The source's resolution helpers can diverge on cyclic
reference graphs or degenerate schema nesting, so the embedding threads an
explicit fuel; every run of the source that terminates is reproduced by any
sufficiently large fuel. -/

/-- JS object-literal spread of an arbitrary value (`{...v}`): an object
contributes its entries, an array or string its indexed elements, and any
other value nothing. -/
def jsSpreadFields : Json → List (String × Json)
  | Json.obj fs => fs
  | Json.arr xs => xs.enum.map fun e => (toString e.1, e.2)
  | Json.str s => s.toList.enum.map fun e => (toString e.1, Json.str (String.mk [e.2]))
  | _ => []

mutual

/-- JS string coercion as used by `+` concatenation. -/
def jsToString : Json → String
  | Json.null => "null"
  | Json.bool b => if b then "true" else "false"
  | Json.num n => toString n
  | Json.str s => s
  | Json.arr xs => String.intercalate "," (jsToStringList xs)
  | Json.obj _ => "[object Object]"

/-- Array elements under JS `Array.prototype.toString` (null renders empty). -/
def jsToStringList : List Json → List String
  | [] => []
  | Json.null :: xs => "" :: jsToStringList xs
  | x :: xs => jsToString x :: jsToStringList xs

end

/-- `traverseSchemaReference`: follow the reference chain, keeping the first
string `title` and `description` seen (closer wins), then rebuild the final
target with them reapplied. -/
def traverseSchemaReference (ref : Json → Option Json) :
    Nat → Option String → Option String → Json → Json
  | fuel, title, description, schema =>
    let title := if title.isNone then schema.getStr "title" else title
    let description := if description.isNone then schema.getStr "description" else description
    match fuel, ref schema with
    | Nat.succ fuel', some target => traverseSchemaReference ref fuel' title description target
    | _, _ =>
      let base := jsSpreadFields schema
      let base := match title with
        | some t => assocSet base "title" (Json.str t)
        | none => base
      let base := match description with
        | some d => assocSet base "description" (Json.str d)
        | none => base
      Json.obj base

/-- `isObjectSchema`: an object whose `type` is `"object"` or whose
`properties` is an object. -/
def isObjectSchema (schema : Json) : Bool :=
  schema.isObj &&
    (decide (schema.get? "type" = some (Json.str "object")) ||
      (match schema.get? "properties" with
        | some p => p.isObj
        | none => false))

/-- `isArraySchema`: an object whose `type` is `"array"` or that has
`items`. -/
def isArraySchema (schema : Json) : Bool :=
  schema.isObj &&
    (decide (schema.get? "type" = some (Json.str "array")) ||
      (schema.get? "items").isSome)

/-- `isStringSchema`: an object whose `type` is `"string"` or whose `type`
array includes `"string"`. -/
def isStringSchema (schema : Json) : Bool :=
  schema.isObj &&
    (decide (schema.get? "type" = some (Json.str "string")) ||
      (match schema.get? "type" with
        | some (Json.arr ts) => ts.contains (Json.str "string")
        | _ => false))

/-- The entries of a schema's `properties` field (empty when absent). -/
def propsEntries (schema : Json) : List (String × Json) :=
  match schema.get? "properties" with
  | some pv => jsSpreadFields pv
  | none => []

/-- The member loop of `resolveAllOfSchema` over already-resolved members:
accumulate the first string title and description and the property union
(later members overwrite), or bail out (`none`) at a non-object-shaped
member. -/
def mergeMembers : List Json → Option String → Option String → List (String × Json) →
    Option (Option String × Option String × List (String × Json))
  | [], title, description, props => some (title, description, props)
  | m :: ms, title, description, props =>
    if isObjectSchema m then
      mergeMembers ms
        (if title.isNone then m.getStr "title" else title)
        (if description.isNone then m.getStr "description" else description)
        (spreadInto props (propsEntries m))
    else none

/-- The `allOf` member array of a schema, when the schema is an object and
the field is an array (the guard of `resolveAllOfSchema`). -/
def getAllOfMembers (schema : Json) : Option (List Json) :=
  match schema.get? "allOf" with
  | some (Json.arr members) => some members
  | _ => none

/-- The merged object-schema literal built by `resolveAllOfSchema`. -/
def mergedAllOfObj (title description : Option String) (props : List (String × Json)) : Json :=
  Json.obj
    ([("type", Json.str "object")]
      ++ (match title with
        | some t => [("title", Json.str t)]
        | none => [])
      ++ (match description with
        | some d => [("description", Json.str d)]
        | none => [])
      ++ [("properties", Json.obj props)])

/-- The merge-or-bail step of `resolveAllOfSchema` over the member array. -/
def resolveAllOfCore (resolve : Json → Json) (schema : Json) (members : List Json) : Json :=
  match mergeMembers (members.map resolve) none none [] with
  | some (title, description, props) => mergedAllOfObj title description props
  | none => schema

/-- `resolveAllOfSchema`, with the recursive member resolution
(`resolveSchema(context, memberSchema)` in the source) abstracted as
`resolve`: merge an all-object `allOf` into one object schema, else return
the schema unchanged. -/
def resolveAllOfSchema (resolve : Json → Json) (schema : Json) : Json :=
  match getAllOfMembers schema with
  | some members => resolveAllOfCore resolve schema members
  | none => schema

/-- `resolveSchema`: reference traversal followed by `allOf` resolution,
with members resolved through the same helper at smaller fuel. -/
def resolveSchema (ref : Json → Option Json) : Nat → Json → Json
  | 0, schema => schema
  | Nat.succ fuel, schema =>
    resolveAllOfSchema (fun m => resolveSchema ref fuel m)
      (traverseSchemaReference ref (Nat.succ fuel) none none schema)

/-- The template state threaded through the engine (`ApiSchemaState`); the
`response`/`operation` back-references of the source state are never read
by the templating functions and are omitted. -/
structure SchemaState where
  varname : String
  depth : Nat

/-- The tool-query formatting pipeline: `currentQuery`, `childrenQuery` and
`childQuery` are these formatters applied to the state's variable name. -/
structure QueryFmt where
  current : String → String
  children : String → String
  child : String → String → String

/-- The fenced-JSON-code-block template literal shared by the fallback,
object-master and object-element templates. -/
def jsonCodeBlock (fmt : QueryFmt) (st : SchemaState) : Json :=
  Json.obj
    [("$lang", Json.str "json"),
      ("$code", Json.obj
        [("$encode", Json.str "json"),
          ("$indent", Json.bool true),
          ("$content", Json.obj [("$", Json.str (fmt.current st.varname))])])]

/-- `generateFallbackTemplate`: the raw JSON code block (the schema argument
is unused, as in the source). -/
def generateFallbackTemplate (fmt : QueryFmt) (st : SchemaState) (_schema : Json) : Json :=
  jsonCodeBlock fmt st

/-- `firstLine`: the text up to the first newline (`indexOf`/`slice` in the
source). -/
def firstLine (text : String) : String :=
  String.mk (text.data.takeWhile fun c => c ≠ '\n')

mutual

/-- `generateKeyPropertyItems`: one bullet per property with an
object-valued resolved schema, nesting a sub-digest for object-shaped
properties. `kfuel` bounds the digest nesting (unbounded in the source). -/
def generateKeyPropertyItems (ref : Json → Option Json) (rfuel : Nat) :
    Nat → Json → List Json
  | 0, _ => []
  | Nat.succ kfuel, schema =>
    match schema.get? "properties" with
    | none => []
    | some propsVal => keyPropsLoop ref rfuel kfuel (jsSpreadFields propsVal)
termination_by kfuel _ => (kfuel, 0, 0)

/-- The entry loop of `generateKeyPropertyItems`. -/
def keyPropsLoop (ref : Json → Option Json) (rfuel : Nat) :
    Nat → List (String × Json) → List Json
  | _, [] => []
  | kfuel, (propName, rawProp) :: es =>
    let propSchema := resolveSchema ref rfuel rawProp
    if propSchema.isObj then
      let summary := "**" ++ propName ++ "**"
        ++ (match propSchema.getStr "description" with
          | some d => ": " ++ firstLine d
          | none => "")
        ++ (match propSchema.get? "default" with
          | some d => " (default: " ++ jsToString d ++ ")"
          | none => "")
      let summary := if summary.length = 0 then "\n" else summary
      let sub :=
        if isObjectSchema propSchema then generateKeyPropertyItems ref rfuel kfuel propSchema
        else []
      let item :=
        if sub ≠ [] then Json.arr [Json.str summary, Json.obj [("$ul", Json.arr sub)]]
        else Json.str summary
      item :: keyPropsLoop ref rfuel kfuel es
    else
      keyPropsLoop ref rfuel kfuel es
termination_by kfuel es => (kfuel, 1, es.length)

end

/-- `pickTitleProperty`: the first of the `title`, `name`, `id` properties
whose schema is string-typed. -/
def pickTitleProperty (schema : Json) : Option String :=
  let prop := fun (n : String) => (schema.get? "properties").bind fun p => p.get? n
  let isStr := fun (v : Option Json) => match v with
    | some j => isStringSchema j
    | none => false
  if isStr (prop "title") then some "title"
  else if isStr (prop "name") then some "name"
  else if isStr (prop "id") then some "id"
  else none

/-- `generateObjectMasterTemplate`: heading at the current depth, optional
description, key-properties digest, fenced JSON block. -/
def generateObjectMasterTemplate (ref : Json → Option Json) (fmt : QueryFmt)
    (rfuel kfuel : Nat) (st : SchemaState) (schema : Json) : Json :=
  let title := (schema.getStr "title").getD "Object"
  let description := schema.get? "description"
  let keyPropertyItems := generateKeyPropertyItems ref rfuel kfuel schema
  let keyProperties : List Json :=
    if keyPropertyItems ≠ [] then
      [Json.str "**Key properties:**", Json.obj [("$ul", Json.arr keyPropertyItems)]]
    else []
  Json.obj
    [("$block", Json.arr
      ([Json.obj [("$h" ++ toString st.depth, Json.str (firstLine title))]]
        ++ (match description with
          | some d => [d]
          | none => [])
        ++ keyProperties
        ++ [jsonCodeBlock fmt st]))]

/-- `generateObjectElementTemplate`: heading from the detected title
property's live value (else "Item"), then the fenced JSON block. -/
def generateObjectElementTemplate (fmt : QueryFmt) (st : SchemaState) (schema : Json) : Json :=
  let title : Json := match pickTitleProperty schema with
    | some tp => Json.obj [("$", Json.str (fmt.child st.varname tp))]
    | none => Json.str "Item"
  Json.obj
    [("$block", Json.arr
      [Json.obj [("$h" ++ toString st.depth, title)], jsonCodeBlock fmt st])]

/-- `generateElementTemplate`: resolve, fall back beyond depth 6, else
render object-shaped schemas in element mode and everything else as the
fallback block. -/
def generateElementTemplate (ref : Json → Option Json) (fmt : QueryFmt)
    (rfuel _kfuel : Nat) (st : SchemaState) (schema : Json) : Json :=
  let schema := resolveSchema ref rfuel schema
  if st.depth > 6 then generateFallbackTemplate fmt st schema
  else if isObjectSchema schema then generateObjectElementTemplate fmt st schema
  else generateFallbackTemplate fmt st schema

/-- `generateArrayMasterTemplate`: heading from the array or item title,
optional description, item digest, then an `$each` iteration rendering each
element one level deeper in element mode. -/
def generateArrayMasterTemplate (ref : Json → Option Json) (fmt : QueryFmt)
    (rfuel kfuel : Nat) (st : SchemaState) (schema : Json) : Json :=
  let itemSchema := resolveSchema ref rfuel ((schema.get? "items").getD Json.null)
  let title := match schema.getStr "title" with
    | some t => t
    | none =>
      match itemSchema.get? "title" with
      | some it => jsToString it ++ " list"
      | none => "List"
  let description := (schema.get? "description").orElse fun _ => itemSchema.get? "description"
  let keyPropertyItems := generateKeyPropertyItems ref rfuel kfuel itemSchema
  let keyProperties : List Json :=
    if keyPropertyItems ≠ [] then
      [Json.str "**Key properties:**", Json.obj [("$ul", Json.arr keyPropertyItems)]]
    else []
  let itemTemplate :=
    generateElementTemplate ref fmt rfuel kfuel
      { st with varname := "item", depth := st.depth + 1 } itemSchema
  let itemTemplate :=
    if itemTemplate.isObj then itemTemplate
    else Json.obj [("$value", itemTemplate)]
  Json.obj
    [("$block", Json.arr
      ([Json.obj [("$h" ++ toString st.depth, Json.str (firstLine title))]]
        ++ (match description with
          | some d => [d]
          | none => [])
        ++ keyProperties
        ++ [Json.obj (spreadInto
            [("$each", Json.str (fmt.children st.varname)), ("$as", Json.str "item")]
            itemTemplate.fields)]))]

/-- `generateMasterTemplate`: resolve, then dispatch on array shape, object
shape, or the fallback block. -/
def generateMasterTemplate (ref : Json → Option Json) (fmt : QueryFmt)
    (rfuel kfuel : Nat) (st : SchemaState) (schema : Json) : Json :=
  let schema := resolveSchema ref rfuel schema
  if isArraySchema schema then generateArrayMasterTemplate ref fmt rfuel kfuel st schema
  else if isObjectSchema schema then generateObjectMasterTemplate ref fmt rfuel kfuel st schema
  else generateFallbackTemplate fmt st schema

/-- `generateSchemaTemplate`: the master template wrapped with the markdown
encoding directive (block-wrapped first when not already structural). -/
def generateSchemaTemplate (ref : Json → Option Json) (fmt : QueryFmt)
    (rfuel kfuel : Nat) (st : SchemaState) (schema : Json) : Json :=
  let content := generateMasterTemplate ref fmt rfuel kfuel st schema
  let content := if content.isObj then content else Json.obj [("$block", content)]
  Json.obj (spreadInto [("$encode", Json.str "markdown")] content.fields)

/-! ## Claim-side reference definitions

These restate parts of the claims in closed form, for comparison with the
embedded source functions. -/

/-- From claim C3's words: the first content type, in document order, whose
schema is an object value and whose media type has a supported encoding. -/
def firstSupportedContent : List (String × Json) → Option (String × Json)
  | [] => none
  | e :: es =>
    if (match (e.2).get? "schema" with
        | some s => s.isObj
        | none => false)
        && (encodeOfMediaType e.1).isSome then
      some e
    else firstSupportedContent es

/-- The first member with a string-valued field `k`. -/
def firstFieldString (k : String) : List Json → Option String
  | [] => none
  | m :: ms =>
    match m.getStr k with
    | some s => some s
    | none => firstFieldString k ms

/-- From claim C6's words: the union of the members' properties, later
members overwriting same-named ones. -/
def unionProps (members : List Json) : List (String × Json) :=
  members.foldl (fun acc m => spreadInto acc (propsEntries m)) []

/-- From claim C6's words: the merged object schema of an all-object
`allOf` — property union with later members overwriting, first present
(string-valued) title and description among the members. -/
def claimMergedAllOf (resolvedMembers : List Json) : Json :=
  mergedAllOfObj (firstFieldString "title" resolvedMembers)
    (firstFieldString "description" resolvedMembers)
    (unionProps resolvedMembers)

/-- The path-item parameters that `allParameters` keeps, given the already
accumulated list: a closed form of the accumulation loop. -/
def keptParams (acc : List Json) : List Json → List Json
  | [] => []
  | p :: ps =>
    if hasParameter acc (paramName p) (paramIn p) then keptParams acc ps
    else p :: keptParams (acc ++ [p]) ps

/-- A parameter whose `schema` field is an object value. -/
def hasObjSchema (p : Json) : Prop :=
  ∃ sfields, p.get? "schema" = some (Json.obj sfields)

/-- A query-located parameter with an object-valued schema (the parameters
that populate the URL query expansion). -/
def isQueryParam (p : Json) : Prop :=
  hasObjSchema p ∧ paramIn p = some "query"

/-- The keys of the query template record (empty while undefined). -/
def queryKeys (st : ParamState) : List String :=
  (st.query.getD []).map Prod.fst

/-! ## Concrete fixtures for witnesses and counterexamples -/

/-- A reference lookup with no references (a self-contained document). -/
def refNone : Json → Option Json := fun _ => none

/-- A concrete query formatter standing in for the tool-query pipeline. -/
def fmtPlain : QueryFmt :=
  ⟨fun v => "$." ++ v, fun v => "$." ++ v ++ "[*]", fun v n => "$." ++ v ++ "." ++ n⟩

/-- A URI-template expansion that returns the template unchanged. -/
def expandIdent : String → (String → Option Json) → String := fun u _ => u

/-- A tree-shaker that returns the roots unchanged with no `$defs`. -/
def treeShakeIdent : List Json → List Json × Option Json := fun roots => (roots, none)

/-- A minimal object-valued schema. -/
def exSchemaObj : Json := Json.obj [("type", Json.str "object")]

/-- An API-level server. -/
def exServer : Json := Json.obj [("url", Json.str "http://api.example")]

/-- Claim C3's scenario: a request body with content types
`["text/plain", "application/json"]` in that order. -/
def exOp3 : OperationModel :=
  { key := "post", path := "/things", operationId := none
    opParameters := none, pathItemParameters := none
    requestBody := some (Json.obj
      [("content", Json.obj
        [("text/plain", Json.obj [("schema", exSchemaObj)]),
          ("application/json", Json.obj [("schema", exSchemaObj)])])])
    servers := none, pathItemServers := none
    apiServers := some [exServer] }

/-- Claim C4's counterexample: an empty `servers` array on the operation
with a server defined at the API level. -/
def exOp4 : OperationModel :=
  { key := "get", path := "/x", operationId := none
    opParameters := none, pathItemParameters := none, requestBody := none
    servers := some [], pathItemServers := none
    apiServers := some [exServer] }

/-- Claim C5's counterexample schema: array-shaped. -/
def exArraySchema : Json := Json.obj [("type", Json.str "array"), ("items", Json.obj [])]

/-- Claim C6's scenario fields: `allOf` with an object member and a string
member. -/
def exAllOfFields : List (String × Json) :=
  [("allOf", Json.arr
    [Json.obj [("type", Json.str "object"), ("properties", Json.obj [("a", Json.obj [])])],
      Json.obj [("type", Json.str "string")]])]

/-- Claim C6's scenario members. -/
def exAllOfMembers : List Json :=
  [Json.obj [("type", Json.str "object"), ("properties", Json.obj [("a", Json.obj [])])],
    Json.obj [("type", Json.str "string")]]

/-- An operation-level parameter `(a, query)`. -/
def exParamA : Json :=
  Json.obj [("name", Json.str "a"), ("in", Json.str "query"),
    ("schema", Json.obj [("type", Json.str "string")])]

/-- An operation-level parameter `(b, path)`. -/
def exParamB : Json :=
  Json.obj [("name", Json.str "b"), ("in", Json.str "path"), ("required", Json.bool true),
    ("schema", Json.obj [("type", Json.str "string")])]

/-- A path-item parameter with the same `(a, query)` key as `exParamA` but a
different node. -/
def exParamA2 : Json :=
  Json.obj [("name", Json.str "a"), ("in", Json.str "query"),
    ("description", Json.str "path-item level"),
    ("schema", Json.obj [("type", Json.str "number")])]

/-- A path-item parameter `(c, header)`. -/
def exParamC : Json :=
  Json.obj [("name", Json.str "c"), ("in", Json.str "header"),
    ("schema", Json.obj [("type", Json.str "string")])]

/-- Claim C8's witness operation: one query parameter and an API server. -/
def exOp8 : OperationModel :=
  { key := "get", path := "/search", operationId := none
    opParameters := some [exParamA], pathItemParameters := none, requestBody := none
    servers := none, pathItemServers := none, apiServers := some [exServer] }

/-- A cookie parameter with an object-valued schema, marked required. -/
def exParamCookie : Json :=
  Json.obj [("name", Json.str "session"), ("in", Json.str "cookie"), ("required", Json.bool true),
    ("schema", Json.obj [("type", Json.str "string")])]

/-- Claim C9's witness operation: one cookie parameter and an API server. -/
def exOp9 : OperationModel :=
  { key := "get", path := "/me", operationId := none
    opParameters := some [exParamCookie], pathItemParameters := none, requestBody := none
    servers := none, pathItemServers := none, apiServers := some [exServer] }

/-- Claim C1's witness lists: operation-level parameters with distinct
keys. -/
def exOpParamsList : List Json := [exParamA, exParamB]

/-- Claim C1's witness lists: path-item parameters, the first sharing the
`(a, query)` key with the operation level. -/
def exPiParamsList : List Json := [exParamA2, exParamC]

/-- The handle request generated for `exOp8`. -/
def exRes8 : HandleRequest :=
  { parameters := Json.obj
      [("type", Json.str "object"),
        ("properties", Json.obj [("a", Json.obj [("type", Json.str "string")])])]
    request := Json.obj
      [("method", Json.str "GET"),
        ("url", Json.obj [("$uri", Json.str "http://api.example/search\x7b?a\x7d")])] }

/-- The handle request generated for `exOp9`. -/
def exRes9 : HandleRequest :=
  { parameters := Json.obj
      [("type", Json.str "object"),
        ("properties", Json.obj [("session", Json.obj [("type", Json.str "string")])]),
        ("required", Json.arr [Json.str "session"])]
    request := Json.obj
      [("method", Json.str "GET"),
        ("url", Json.obj [("$uri", Json.str "http://api.example/me")])] }

/-! ## Helper lemmas -/

/-- The first string title/description accumulation of `mergeMembers`
written with `Option.orElse`. -/
theorem firstFieldString_cons (k : String) (m : Json) (ms : List Json) :
    firstFieldString k (m :: ms) = (m.getStr k).orElse fun _ => firstFieldString k ms := by
  cases h : m.getStr k <;> simp [firstFieldString, h, Option.orElse]

/-- `mergeMembers` on all-object members: the first string title and
description and the property fold. -/
theorem mergeMembers_all (ms : List Json) (t d : Option String) (props : List (String × Json))
    (h : ∀ m ∈ ms, isObjectSchema m = true) :
    mergeMembers ms t d props =
      some (t.orElse fun _ => firstFieldString "title" ms,
        d.orElse fun _ => firstFieldString "description" ms,
        ms.foldl (fun acc m => spreadInto acc (propsEntries m)) props) := by
  induction ms generalizing t d props with
  | nil => cases t <;> cases d <;> simp [mergeMembers, firstFieldString, Option.orElse]
  | cons m ms ih =>
    have hm : isObjectSchema m = true := h m (List.mem_cons_self m ms)
    have hms : ∀ x ∈ ms, isObjectSchema x = true := fun x hx => h x (List.mem_cons_of_mem m hx)
    rw [show mergeMembers (m :: ms) t d props =
        mergeMembers ms (if t.isNone then m.getStr "title" else t)
          (if d.isNone then m.getStr "description" else d)
          (spreadInto props (propsEntries m)) from by simp [mergeMembers, hm]]
    rw [ih _ _ _ hms]
    cases t <;> cases d <;>
      simp [firstFieldString_cons, Option.orElse, List.foldl_cons]

/-- `mergeMembers` bails out at any non-object member. -/
theorem mergeMembers_bail (ms : List Json) (t d : Option String) (props : List (String × Json))
    (h : ∃ m ∈ ms, ¬ isObjectSchema m = true) :
    mergeMembers ms t d props = none := by
  induction ms generalizing t d props with
  | nil => simp at h
  | cons m ms ih =>
    rcases h with ⟨m', hm', hno⟩
    by_cases hb : isObjectSchema m = true
    · rcases List.mem_cons.mp hm' with h1 | h1
      · exact absurd hb (h1 ▸ hno)
      · simp only [mergeMembers, hb, if_true]
        exact ih _ _ _ ⟨m', h1, hno⟩
    · simp [mergeMembers, hb]

/-- The assembled request template always exposes its URL under `url`. -/
theorem assembleRequest_url (method url : String) (headers : Option (List (String × Json)))
    (body : Option Json) :
    (assembleRequest method url headers body).get? "url" =
      some (Json.obj [("$uri", Json.str url)]) := by
  cases headers <;> cases body <;> rfl

/-- The assembled request template's `body` entry is the body slot. -/
theorem assembleRequest_body (method url : String) (headers : Option (List (String × Json)))
    (body : Option Json) :
    (assembleRequest method url headers body).get? "body" = body := by
  cases headers <;> cases body <;> rfl

/-- The keys of the assembled request template. -/
theorem assembleRequest_keys (method url : String) (headers : Option (List (String × Json)))
    (body : Option Json) :
    ∀ k ∈ (assembleRequest method url headers body).fields.map Prod.fst,
      k = "method" ∨ k = "url" ∨ k = "headers" ∨ k = "body" := by
  cases headers <;> cases body <;> intro k hk <;>
    simp [assembleRequest, Json.fields] at hk <;> tauto

/-- `processParameter` never writes the body slot. -/
theorem processParameter_body (st : ParamState) (p : Json) :
    (processParameter st p).body = st.body := by
  unfold processParameter
  rcases hs : p.get? "schema" with _ | sch
  · rfl
  · cases sch <;> first
      | rfl
      | (dsimp only []; split_ifs <;> rfl)

/-- The parameter phase leaves the body slot unset. -/
theorem foldl_processParameter_body (ps : List Json) (st : ParamState) :
    (ps.foldl processParameter st).body = st.body := by
  induction ps generalizing st with
  | nil => rfl
  | cons p ps ih => rw [List.foldl_cons, ih, processParameter_body]

/-- `selectServer` with an explicit option server. -/
theorem selectServer_opt (s : Json) (a b c : Option (List Json)) :
    selectServer (some s) a b c = Except.ok s := rfl

/-- `selectServer` is the only error source, and errors exactly when the
first defined servers array along the precedence chain is missing or
empty. -/
theorem selectServer_none_cases (a b c : Option (List Json)) :
    (((a.orElse fun _ => (b.orElse fun _ => c)) = none ∨
        (a.orElse fun _ => (b.orElse fun _ => c)) = some []) →
      selectServer none a b c = Except.error "No servers defined for operation") ∧
    (∀ s rest, (a.orElse fun _ => (b.orElse fun _ => c)) = some (s :: rest) →
      selectServer none a b c = Except.ok s) := by
  constructor
  · intro h
    unfold selectServer
    rcases h with h | h <;> rw [h]
  · intro s rest h
    unfold selectServer
    rw [h]

/-! ## Claim theorems -/

/-- Claim C7: the handle name is `operationId` when present, else the
uppercased method, a space, and the path, with every character outside
`[A-Za-z0-9_-]` replaced by an underscore; for no operationId, method
`get`, path `/users/{id}` the name is `GET__users__id_`. -/
theorem handle_name_spec :
    (∀ (operationId : Option String) (key path : String),
      generateApiHandleName operationId (jsToUpperCase key) path =
        Except.ok (sanitizeName (operationId.getD (jsToUpperCase key ++ " " ++ path)))) ∧
    generateApiHandleName none (jsToUpperCase "get") "/users/\x7bid\x7d" =
      Except.ok "GET__users__id_" := by
  constructor
  · intro operationId key path
    cases operationId <;> rfl
  · rfl

/-- Claim C10: the `Unnamed operation` error branch is unreachable — the
method and path are strings, so the name fallback is always defined and
name derivation always succeeds. -/
theorem unnamed_operation_unreachable :
    ∀ (operationId : Option String) (method path : String),
      generateApiHandleName operationId method path ≠ Except.error "Unnamed operation" ∧
        ∃ n, generateApiHandleName operationId method path = Except.ok n := by
  intro operationId method path
  cases operationId with
  | none => exact ⟨fun h => Except.noConfusion h, _, rfl⟩
  | some s => exact ⟨fun h => Except.noConfusion h, _, rfl⟩

/-- Claim C5 (amended): the depth bound is enforced by the element-mode
renderer — beyond depth 6, `generateElementTemplate` always produces the
raw JSON code block, regardless of the schema's shape. -/
theorem element_template_depth_bound (ref : Json → Option Json) (fmt : QueryFmt)
    (rfuel kfuel : Nat) (st : SchemaState) (schema : Json) (h : st.depth > 6) :
    generateElementTemplate ref fmt rfuel kfuel st schema =
      generateFallbackTemplate fmt st (resolveSchema ref rfuel schema) := by
  simp [generateElementTemplate, h]

/-- Claim C5 witness: the depth bound at a concrete state and schema. -/
theorem element_template_depth_bound_witness :
    generateElementTemplate refNone fmtPlain 1 1 ⟨"body", 7⟩ (Json.obj []) =
      generateFallbackTemplate fmtPlain ⟨"body", 7⟩ (resolveSchema refNone 1 (Json.obj [])) :=
  element_template_depth_bound refNone fmtPlain 1 1 ⟨"body", 7⟩ (Json.obj []) (by decide)

/-- Claim C5 counterexample: the master-mode renderer does not check the
depth — at depth 7 an array-shaped schema still renders as an array master
template, not as the raw JSON code block fallback. -/
theorem master_template_ignores_depth :
    (⟨"body", 7⟩ : SchemaState).depth > 6 ∧
    isArraySchema (resolveSchema refNone 5 exArraySchema) = true ∧
    generateMasterTemplate refNone fmtPlain 5 5 ⟨"body", 7⟩ exArraySchema ≠
      generateFallbackTemplate fmtPlain ⟨"body", 7⟩ (resolveSchema refNone 5 exArraySchema) := by
  refine ⟨by decide, by decide, by decide⟩

/-- Claim C6: the `allOf` resolution helper merges when every recursively
resolved member is object-shaped — property union with later members
overwriting, first present (string-valued) title and description — and
returns the schema unchanged when any member is not object-shaped; on the
scenario `allOf: [{type: object, properties: {a: {}}}, {type: string}]` the
schema is returned unmodified and master rendering falls through to the raw
JSON code block. -/
theorem allOf_merge_spec (resolve : Json → Json) (fs : List (String × Json))
    (members : List Json)
    (h : (Json.obj fs).get? "allOf" = some (Json.arr members)) :
    ((∀ m ∈ members, isObjectSchema (resolve m) = true) →
      resolveAllOfSchema resolve (Json.obj fs) = claimMergedAllOf (members.map resolve)) ∧
    ((∃ m ∈ members, isObjectSchema (resolve m) = false) →
      resolveAllOfSchema resolve (Json.obj fs) = Json.obj fs) ∧
    resolveAllOfSchema (resolveSchema refNone 3) (Json.obj exAllOfFields) =
      Json.obj exAllOfFields ∧
    generateMasterTemplate refNone fmtPlain 3 3 ⟨"body", 1⟩ (Json.obj exAllOfFields) =
      generateFallbackTemplate fmtPlain ⟨"body", 1⟩
        (resolveSchema refNone 3 (Json.obj exAllOfFields)) := by
  have hga : getAllOfMembers (Json.obj fs) = some members := by
    unfold getAllOfMembers
    rw [h]
  refine ⟨?_, ?_, by decide, by decide⟩
  · intro hall
    have hall' : ∀ m ∈ members.map resolve, isObjectSchema m = true := by
      intro m hm
      rcases List.mem_map.mp hm with ⟨x, hx, rfl⟩
      exact hall x hx
    unfold resolveAllOfSchema
    rw [hga]
    show resolveAllOfCore resolve (Json.obj fs) members = claimMergedAllOf (members.map resolve)
    unfold resolveAllOfCore
    rw [mergeMembers_all _ _ _ _ hall']
    rfl
  · intro ⟨m, hm, hno⟩
    have hbail : ∃ x ∈ members.map resolve, ¬ isObjectSchema x = true :=
      ⟨resolve m, List.mem_map_of_mem resolve hm, by simp [hno]⟩
    unfold resolveAllOfSchema
    rw [hga]
    show resolveAllOfCore resolve (Json.obj fs) members = Json.obj fs
    unfold resolveAllOfCore
    rw [mergeMembers_bail _ _ _ _ hbail]

/-- Claim C6 witness: the bail-out at the concrete scenario schema. -/
theorem allOf_merge_spec_witness :
    resolveAllOfSchema (resolveSchema refNone 3) (Json.obj exAllOfFields) =
      Json.obj exAllOfFields :=
  (allOf_merge_spec (resolveSchema refNone 3) exAllOfFields exAllOfMembers rfl).2.2.1

/-- Claim C3: the body slot comes from the first content type, in document
order, whose schema is an object value and whose media type has a supported
encoding; unrecognized media types are skipped and everything after the
first match is ignored; for content types `["text/plain",
"application/json"]` the slot encodes as `json`. -/
theorem body_content_selection :
    (∀ (op : OperationModel) (rb : Json), op.requestBody = some rb →
      (requestFullState op).body =
        (selectBodyContent (rb.get? "description") ((rb.get? "content").getD Json.null).fields).map
          fun e => Json.obj
            [("$", Json.str (freshBodyKey ((requestParamState op).paramIndex.map Prod.fst))),
              ("encode", Json.str e.1)]) ∧
    (∀ (rbDescription : Option Json) (content : List (String × Json)),
      selectBodyContent rbDescription content =
        (firstSupportedContent content).bind fun e =>
          match (e.2).get? "schema", encodeOfMediaType e.1 with
          | some (Json.obj sfields), some enc =>
            some (enc,
              match rbDescription with
              | some d => Json.obj (assocSet sfields "description" d)
              | none => Json.obj sfields)
          | _, _ => none) ∧
    (∃ r, generateApiHandleRequest expandIdent treeShakeIdent exOp3 none = Except.ok r ∧
      r.request.get? "body" = some (Json.obj [("$", Json.str "body"), ("encode", Json.str "json")])) := by
  refine ⟨?_, ?_, ⟨_, rfl, rfl⟩⟩
  · intro op rb hrb
    have hbody : (requestParamState op).body = none := by
      unfold requestParamState
      rw [foldl_processParameter_body]
      rfl
    unfold requestFullState
    rw [hrb]
    unfold processBody
    rcases hsel : selectBodyContent (rb.get? "description")
        (((rb.get? "content").getD Json.null).fields) with _ | ⟨enc, cs⟩
    · simp [hsel, hbody]
    · simp [hsel, hbody]
      split_ifs <;> rfl
  · intro rbDescription content
    induction content with
    | nil => rfl
    | cons e es ih =>
      rcases e with ⟨mediaType, node⟩
      rcases hsch : node.get? "schema" with _ | sch
      · simpa [selectBodyContent, firstSupportedContent, hsch] using ih
      · cases sch
        case obj sfields =>
          rcases henc : encodeOfMediaType mediaType with _ | enc
          · simpa [selectBodyContent, firstSupportedContent, hsch, henc, Json.isObj] using ih
          · simp [selectBodyContent, firstSupportedContent, hsch, henc, Json.isObj]
        all_goals simpa [selectBodyContent, firstSupportedContent, hsch] using ih

/-- Claim C4 counterexample: an operation whose own `servers` is a defined
empty array fails with the no-servers error even though the API level
provides a server. -/
theorem server_precedence_counterexample :
    (∃ s, exOp4.apiServers = some [s]) ∧
    generateApiHandleRequest expandIdent treeShakeIdent exOp4 none =
      Except.error "No servers defined for operation" :=
  ⟨⟨exServer, rfl⟩, rfl⟩

/-- Claim C4 (amended): server precedence is by field definedness — the
explicit option server, else the first of operation, path item and API
whose `servers` field is defined at all; the no-servers error is raised
exactly when no option server is given and the first defined array is
missing or empty, and otherwise that array's first server builds the URL. -/
theorem server_precedence_amended
    (expandUri : String → (String → Option Json) → String)
    (treeShake : List Json → List Json × Option Json)
    (op : OperationModel) (optServer : Option Json) :
    (generateApiHandleRequest expandUri treeShake op optServer =
        Except.error "No servers defined for operation" ↔
      optServer = none ∧
        ((op.servers.orElse fun _ => ((op.pathItemServers).orElse fun _ => op.apiServers)) = none ∨
          (op.servers.orElse fun _ => ((op.pathItemServers).orElse fun _ => op.apiServers)) = some [])) ∧
    (∀ s rest, optServer = none →
      (op.servers.orElse fun _ => ((op.pathItemServers).orElse fun _ => op.apiServers)) =
          some (s :: rest) →
      ∃ r, generateApiHandleRequest expandUri treeShake op optServer = Except.ok r ∧
        r.request.get? "url" = some (Json.obj [("$uri",
          Json.str (buildUrl (expandServerUrl expandUri s) op.path (requestFullState op).query))])) ∧
    (∀ s, optServer = some s →
      ∃ r, generateApiHandleRequest expandUri treeShake op optServer = Except.ok r ∧
        r.request.get? "url" = some (Json.obj [("$uri",
          Json.str (buildUrl (expandServerUrl expandUri s) op.path (requestFullState op).query))])) := by
  refine ⟨?_, ?_, ?_⟩
  · rcases hopt : optServer with _ | s
    case some =>
      rw [generateApiHandleRequest, selectServer_opt]
      simp
    · rcases hchain : (op.servers.orElse fun _ => ((op.pathItemServers).orElse fun _ => op.apiServers))
          with _ | l
      · simp [generateApiHandleRequest,
          (selectServer_none_cases op.servers op.pathItemServers op.apiServers).1 (Or.inl hchain)]
      · rcases l with _ | ⟨s, rest⟩
        · simp [generateApiHandleRequest,
            (selectServer_none_cases op.servers op.pathItemServers op.apiServers).1 (Or.inr hchain)]
        · rw [generateApiHandleRequest,
            (selectServer_none_cases op.servers op.pathItemServers op.apiServers).2 s rest hchain]
          simp [hchain]
  · intro s rest hopt hchain
    subst hopt
    rw [generateApiHandleRequest,
      (selectServer_none_cases op.servers op.pathItemServers op.apiServers).2 s rest hchain]
    exact ⟨_, rfl, assembleRequest_url _ _ _ _⟩
  · intro s hopt
    subst hopt
    rw [generateApiHandleRequest, selectServer_opt]
    exact ⟨_, rfl, assembleRequest_url _ _ _ _⟩

/-- Membership in the operations yielded from one path-item node: exactly
the HTTP-method keys not yet seen, at their first binding. -/
theorem collectOps_snd_mem (es : PathItemEntries) :
    ∀ (seen : List String) (k : String) (v : Json),
      ((k, v) ∈ (collectOps seen es).2 ↔
        k ∈ OPERATIONS ∧ k ∉ seen ∧ lookupField es k = some v) := by
  induction es with
  | nil => simp [collectOps, lookupField]
  | cons e es ih =>
    rcases e with ⟨k', v'⟩
    intro seen k v
    by_cases hc : k' ∈ OPERATIONS ∧ k' ∉ seen
    · rw [show (collectOps seen ((k', v') :: es)).2 =
          (k', v') :: (collectOps (k' :: seen) es).2 from by simp [collectOps, hc]]
      by_cases hk : k = k'
      · subst hk
        simp only [List.mem_cons, ih, lookupField]
        constructor
        · rintro (he | ⟨_, hns, _⟩)
          · exact ⟨hc.1, hc.2, by simp [(Prod.mk.injEq _ _ _ _).mp he]⟩
          · exact absurd (Or.inl trivial) hns
        · rintro ⟨_, _, hl⟩
          exact Or.inl (by simp at hl; rw [hl])
      · simp only [List.mem_cons, ih, lookupField]
        constructor
        · rintro (he | ⟨h1, h2, h3⟩)
          · exact absurd (congrArg Prod.fst he) hk
          · refine ⟨h1, fun hmem => h2 (Or.inr hmem), ?_⟩
            rw [if_neg (fun e => hk e.symm)]
            exact h3
        · rintro ⟨h1, h2, h3⟩
          rw [if_neg (fun e => hk e.symm)] at h3
          exact Or.inr ⟨h1, by simp [hk, h2], h3⟩
    · rw [show (collectOps seen ((k', v') :: es)).2 =
          (collectOps seen es).2 from by simp [collectOps, hc]]
      rw [ih]
      by_cases hk : k = k'
      · subst hk
        simp only [lookupField, if_pos rfl]
        constructor
        · rintro ⟨h1, h2, _⟩
          exact absurd ⟨h1, h2⟩ hc
        · rintro ⟨h1, h2, _⟩
          exact absurd ⟨h1, h2⟩ hc
      · simp only [lookupField]
        rw [if_neg (fun e => hk e.symm)]

/-- Membership in the seen set after one path-item node. -/
theorem collectOps_fst_mem (es : PathItemEntries) :
    ∀ (seen : List String) (k : String),
      (k ∈ (collectOps seen es).1 ↔
        k ∈ seen ∨ (k ∈ OPERATIONS ∧ (lookupField es k).isSome)) := by
  induction es with
  | nil => simp [collectOps, lookupField]
  | cons e es ih =>
    rcases e with ⟨k', v'⟩
    intro seen k
    by_cases hc : k' ∈ OPERATIONS ∧ k' ∉ seen
    · rw [show (collectOps seen ((k', v') :: es)).1 =
          (collectOps (k' :: seen) es).1 from by simp [collectOps, hc]]
      rw [ih]
      by_cases hk : k = k'
      · subst hk
        simp [lookupField, hc.1]
      · simp only [List.mem_cons, lookupField]
        rw [if_neg (fun e => hk e.symm)]
        tauto
    · rw [show (collectOps seen ((k', v') :: es)).1 =
          (collectOps seen es).1 from by simp [collectOps, hc]]
      rw [ih]
      by_cases hk : k = k'
      · subst hk
        simp only [lookupField, if_pos rfl, Option.isSome_some]
        constructor
        · tauto
        · rintro (h | ⟨h1, _⟩)
          · exact Or.inl h
          · rcases not_and_or.mp hc with hno | hin
            · exact absurd h1 hno
            · exact Or.inl (not_not.mp hin)
      · simp only [lookupField]
        rw [if_neg (fun e => hk e.symm)]

/-- The method keys yielded from one node are pairwise distinct. -/
theorem collectOps_snd_nodup (es : PathItemEntries) :
    ∀ (seen : List String), ((collectOps seen es).2.map Prod.fst).Nodup := by
  induction es with
  | nil => simp [collectOps]
  | cons e es ih =>
    rcases e with ⟨k', v'⟩
    intro seen
    by_cases hc : k' ∈ OPERATIONS ∧ k' ∉ seen
    · rw [show (collectOps seen ((k', v') :: es)).2 =
          (k', v') :: (collectOps (k' :: seen) es).2 from by simp [collectOps, hc]]
      refine List.Nodup.cons ?_ (ih (k' :: seen))
      intro hmem
      rcases List.mem_map.mp hmem with ⟨⟨k, v⟩, hkv, hfst⟩
      rcases (collectOps_snd_mem es (k' :: seen) k v).mp hkv with ⟨_, hns, _⟩
      refine hns ?_
      rw [show k = k' from hfst]
      exact List.mem_cons_self k' seen
    · rw [show (collectOps seen ((k', v') :: es)).2 =
          (collectOps seen es).2 from by simp [collectOps, hc]]
      exact ih seen

/-- Membership in the operations yielded along a resolution chain: exactly
the HTTP-method keys not yet seen, at the binding of the closest path item
that defines them. -/
theorem operationsChain_mem (chain : List PathItemEntries) :
    ∀ (seen : List String) (k : String) (v : Json),
      ((k, v) ∈ operationsChain seen chain ↔
        k ∈ OPERATIONS ∧ k ∉ seen ∧ chainLookup chain k = some v) := by
  induction chain with
  | nil => simp [operationsChain, chainLookup]
  | cons node rest ih =>
    intro seen k v
    rw [show operationsChain seen (node :: rest) =
        (collectOps seen node).2 ++ operationsChain (collectOps seen node).1 rest from rfl]
    rw [List.mem_append, collectOps_snd_mem, ih]
    rw [show chainLookup (node :: rest) k =
        (match lookupField node k with
          | some v => some v
          | none => chainLookup rest k) from rfl]
    rcases hl : lookupField node k with _ | v'
    · simp only [collectOps_fst_mem, hl]
      constructor
      · rintro (⟨_, _, hcontra⟩ | ⟨h1, h2, h3⟩)
        · exact absurd hcontra (by simp)
        · exact ⟨h1, fun hs => h2 (Or.inl hs), h3⟩
      · rintro ⟨h1, h2, h3⟩
        exact Or.inr ⟨h1, by simp [h2, hl], h3⟩
    · simp only [collectOps_fst_mem, hl]
      constructor
      · rintro (⟨h1, h2, h3⟩ | ⟨h1, h2, h3⟩)
        · exact ⟨h1, h2, by simp at h3; rw [h3]⟩
        · exact absurd (Or.inr ⟨h1, by simp [hl]⟩) h2
      · rintro ⟨h1, h2, h3⟩
        simp at h3
        exact Or.inl ⟨h1, h2, by rw [h3]⟩

/-- Along a chain, the yielded method keys are pairwise distinct and never
in the starting seen set. -/
theorem operationsChain_nodup (chain : List PathItemEntries) :
    ∀ (seen : List String),
      ((operationsChain seen chain).map Prod.fst).Nodup ∧
        ∀ k ∈ (operationsChain seen chain).map Prod.fst, k ∉ seen := by
  induction chain with
  | nil => simp [operationsChain]
  | cons node rest ih =>
    intro seen
    rw [show operationsChain seen (node :: rest) =
        (collectOps seen node).2 ++ operationsChain (collectOps seen node).1 rest from rfl]
    rw [List.map_append]
    constructor
    · rw [List.nodup_append]
      refine ⟨collectOps_snd_nodup node seen, (ih _).1, ?_⟩
      intro k hk1 hk2
      rcases List.mem_map.mp hk1 with ⟨⟨k1, v1⟩, hkv1, hf1⟩
      have hin : k ∈ (collectOps seen node).1 := by
        rcases (collectOps_snd_mem node seen k1 v1).mp hkv1 with ⟨h1, _, h3⟩
        have hk1 : k1 = k := hf1
        subst hk1
        rw [collectOps_fst_mem]
        exact Or.inr ⟨h1, by rw [h3]; rfl⟩
      exact (ih (collectOps seen node).1).2 k hk2 hin
    · intro k hk
      rcases List.mem_append.mp hk with hk | hk
      · rcases List.mem_map.mp hk with ⟨⟨k1, v1⟩, hkv1, hf1⟩
        rcases (collectOps_snd_mem node seen k1 v1).mp hkv1 with ⟨_, h2, _⟩
        have hk1 : k1 = k := hf1
        exact hk1 ▸ h2
      · intro hs
        exact (ih (collectOps seen node).1).2 k hk
          ((collectOps_fst_mem node seen k).mpr (Or.inl hs))

/-- Claim C2: along a path item's `$ref` resolution chain, `operations()`
yields each HTTP method at most once, and the operation yielded for a
method is the one on the closest path item in the chain that defines it —
first occurrence along the chain wins. -/
theorem operations_first_wins (chain : List PathItemEntries) :
    ((pathItemOperations chain).map Prod.fst).Nodup ∧
      ∀ (k : String) (v : Json),
        ((k, v) ∈ pathItemOperations chain ↔
          k ∈ OPERATIONS ∧ chainLookup chain k = some v) := by
  constructor
  · exact (operationsChain_nodup chain []).1
  · intro k v
    rw [show pathItemOperations chain = operationsChain [] chain from rfl]
    rw [operationsChain_mem]
    simp

/-- The linear scan of `hasParameter` as an existential. -/
theorem hasParameter_eq_true (acc : List Json) (n i : Option String) :
    hasParameter acc n i = true ↔ ∃ q ∈ acc, paramName q = n ∧ paramIn q = i := by
  simp [hasParameter, List.any_eq_true]

/-- The accumulation loop of `allParameters` appends exactly the kept
path-item parameters. -/
theorem addPathItemParams_eq (ps : List Json) :
    ∀ (acc : List Json), addPathItemParams acc ps = acc ++ keptParams acc ps := by
  induction ps with
  | nil => intro acc; simp [addPathItemParams, keptParams]
  | cons p ps ih =>
    intro acc
    by_cases hh : hasParameter acc (paramName p) (paramIn p) = true
    · simp [addPathItemParams, keptParams, hh, ih]
    · simp only [addPathItemParams, keptParams, hh, if_false, Bool.false_eq_true]
      rw [ih (acc ++ [p]), List.append_assoc]
      rfl

/-- The kept path-item parameters appear in document order. -/
theorem keptParams_sublist (ps : List Json) :
    ∀ (acc : List Json), (keptParams acc ps).Sublist ps := by
  induction ps with
  | nil => intro acc; simp [keptParams]
  | cons p ps ih =>
    intro acc
    by_cases hh : hasParameter acc (paramName p) (paramIn p) = true
    · simp only [keptParams, hh, if_true]
      exact (ih acc).cons p
    · simp only [keptParams, hh, if_false, Bool.false_eq_true]
      exact (ih (acc ++ [p])).cons₂ p

/-- Every kept path-item parameter's key differs from every accumulated
key. -/
theorem keptParams_keys (ps : List Json) :
    ∀ (acc : List Json) (p : Json), p ∈ keptParams acc ps →
      ∀ q ∈ acc, paramKey q ≠ paramKey p := by
  induction ps with
  | nil => intro acc p hp; simp [keptParams] at hp
  | cons hd ps ih =>
    intro acc p hp q hq
    by_cases hh : hasParameter acc (paramName hd) (paramIn hd) = true
    · rw [show keptParams acc (hd :: ps) = keptParams acc ps from by simp [keptParams, hh]] at hp
      exact ih acc p hp q hq
    · rw [show keptParams acc (hd :: ps) = hd :: keptParams (acc ++ [hd]) ps from by
        simp [keptParams, hh]] at hp
      rcases List.mem_cons.mp hp with rfl | hp
      · intro he
        have hex : ∃ r ∈ acc, paramName r = paramName p ∧ paramIn r = paramIn p :=
          ⟨q, hq, ((Prod.mk.injEq _ _ _ _).mp he).1, ((Prod.mk.injEq _ _ _ _).mp he).2⟩
        exact hh ((hasParameter_eq_true acc (paramName p) (paramIn p)).mpr hex)
      · exact ih (acc ++ [hd]) p hp q (List.mem_append_left _ hq)

/-- The accumulated and kept parameters together have pairwise distinct
keys, given distinct accumulated keys. -/
theorem keptParams_nodup (ps : List Json) :
    ∀ (acc : List Json), (acc.map paramKey).Nodup →
      ((acc ++ keptParams acc ps).map paramKey).Nodup := by
  induction ps with
  | nil => intro acc h; simpa [keptParams]
  | cons hd ps ih =>
    intro acc h
    by_cases hh : hasParameter acc (paramName hd) (paramIn hd) = true
    · rw [show keptParams acc (hd :: ps) = keptParams acc ps from by simp [keptParams, hh]]
      exact ih acc h
    · rw [show keptParams acc (hd :: ps) = hd :: keptParams (acc ++ [hd]) ps from by
        simp [keptParams, hh]]
      rw [show acc ++ hd :: keptParams (acc ++ [hd]) ps =
          (acc ++ [hd]) ++ keptParams (acc ++ [hd]) ps from by
        rw [List.append_assoc]; rfl]
      refine ih (acc ++ [hd]) ?_
      rw [List.map_append, List.nodup_append]
      refine ⟨h, List.nodup_singleton _, ?_⟩
      intro x hx hx'
      rcases List.mem_map.mp hx with ⟨q, hq, rfl⟩
      have he : paramKey q = paramKey hd := by simpa using hx'
      refine hh ((hasParameter_eq_true acc (paramName hd) (paramIn hd)).mpr ?_)
      exact ⟨q, hq, ((Prod.mk.injEq _ _ _ _).mp he).1, ((Prod.mk.injEq _ _ _ _).mp he).2⟩

/-- Every path-item parameter whose key collides with nothing already
accumulated is kept, provided the path-item keys are themselves distinct
(the OpenAPI precondition on each parameter list). -/
theorem keptParams_complete (ps : List Json) :
    ∀ (acc : List Json), (ps.map paramKey).Nodup →
      ∀ p ∈ ps, (∀ q ∈ acc, paramKey q ≠ paramKey p) → p ∈ keptParams acc ps := by
  induction ps with
  | nil => intro acc _ p hp; simp at hp
  | cons hd ps ih =>
    intro acc hnd p hp hnocol
    rw [List.map_cons] at hnd
    have hnd' := List.nodup_cons.mp hnd
    by_cases hh : hasParameter acc (paramName hd) (paramIn hd) = true
    · rw [show keptParams acc (hd :: ps) = keptParams acc ps from by simp [keptParams, hh]]
      rcases List.mem_cons.mp hp with rfl | hp
      · rcases (hasParameter_eq_true acc (paramName p) (paramIn p)).mp hh with ⟨q, hq, h1, h2⟩
        exact absurd (by rw [paramKey, paramKey, h1, h2]) (hnocol q hq)
      · exact ih acc hnd'.2 p hp hnocol
    · rw [show keptParams acc (hd :: ps) = hd :: keptParams (acc ++ [hd]) ps from by
        simp [keptParams, hh]]
      rcases List.mem_cons.mp hp with rfl | hp
      · exact List.mem_cons_self p _
      · refine List.mem_cons_of_mem hd (ih (acc ++ [hd]) hnd'.2 p hp ?_)
        intro q hq
        rcases List.mem_append.mp hq with hq | hq
        · exact hnocol q hq
        · rw [List.mem_singleton.mp hq]
          intro he
          apply hnd'.1
          rw [he]
          exact List.mem_map_of_mem paramKey hp

/-- Claim C1: `allParameters` is the operation's parameters in document
order followed by the path-item parameters in document order, dropping a
path-item parameter exactly when a parameter with the same `(name, in)` key
was already accumulated; for an operation whose own parameter keys are
distinct (as the OpenAPI specification and this repository's interface
documentation require), the result holds no two entries with an equal key,
a key declared at both levels keeps the operation-level entry only, and —
when the path-item keys are likewise distinct — every non-colliding
path-item parameter is included. -/
theorem allParameters_precedence (opP piP : List Json)
    (h : (opP.map paramKey).Nodup) :
    ((allParameters (some opP) (some piP)).map paramKey).Nodup ∧
    (allParameters (some opP) (some piP)).take opP.length = opP ∧
    ((allParameters (some opP) (some piP)).drop opP.length).Sublist piP ∧
    (∀ p ∈ (allParameters (some opP) (some piP)).drop opP.length,
      ∀ q ∈ opP, paramKey q ≠ paramKey p) ∧
    (∀ p ∈ piP, (∃ q ∈ opP, paramKey q = paramKey p) →
      p ∉ (allParameters (some opP) (some piP)).drop opP.length) ∧
    ((piP.map paramKey).Nodup →
      ∀ p ∈ piP, (∀ q ∈ opP, paramKey q ≠ paramKey p) →
        p ∈ (allParameters (some opP) (some piP)).drop opP.length) := by
  have hall : allParameters (some opP) (some piP) = opP ++ keptParams opP piP :=
    addPathItemParams_eq piP opP
  rw [hall]
  refine ⟨keptParams_nodup piP opP h, ?_, ?_, ?_, ?_, ?_⟩
  · rw [List.take_left]
  · rw [List.drop_left]
    exact keptParams_sublist piP opP
  · rw [List.drop_left]
    exact fun p hp q hq => keptParams_keys piP opP p hp q hq
  · rw [List.drop_left]
    rintro p _ ⟨q, hq, he⟩ hmem
    exact keptParams_keys piP opP p hmem q hq he
  · rw [List.drop_left]
    exact fun h2 p hp hnocol => keptParams_complete piP opP h2 p hp hnocol

/-- Claim C1 witness: concrete parameter lists with a key shared across the
levels — the operation-level entries form the prefix, and the non-colliding
path-item parameter `(c, header)` is included in the suffix. -/
theorem allParameters_precedence_witness :
    (allParameters (some exOpParamsList) (some exPiParamsList)).take exOpParamsList.length =
        exOpParamsList ∧
    exParamC ∈ (allParameters (some exOpParamsList) (some exPiParamsList)).drop
        exOpParamsList.length :=
  ⟨(allParameters_precedence exOpParamsList exPiParamsList (by decide)).2.1,
    (allParameters_precedence exOpParamsList exPiParamsList (by decide)).2.2.2.2.2
      (by decide) exParamC (by decide) (by decide)⟩

/-- The keys after a JS record assignment. -/
theorem assocSet_keys {α : Type} (m : List (String × α)) (k : String) (v : α) (k' : String) :
    k' ∈ (assocSet m k v).map Prod.fst ↔ k' ∈ m.map Prod.fst ∨ k' = k := by
  induction m with
  | nil => simp [assocSet]
  | cons e m ih =>
    by_cases he : e.1 = k
    · simp only [assocSet, he, if_true]
      simp [← he]
      tauto
    · simp only [assocSet, he, if_false]
      simp [ih]
      tauto

/-- A parameter without an object-valued schema leaves the loop state
unchanged. -/
theorem pp_noSchema (st : ParamState) (p : Json) (h : ¬ hasObjSchema p) :
    processParameter st p = st := by
  unfold processParameter
  rcases hs : p.get? "schema" with _ | sch
  · rfl
  · cases sch
    case obj sfields => exact absurd ⟨sfields, hs⟩ h
    all_goals rfl

/-- A query parameter with an object schema adds its slot to the query
record. -/
theorem pp_query_pos (st : ParamState) (p : Json) (sfields : List (String × Json))
    (hs : p.get? "schema" = some (Json.obj sfields)) (hin : paramIn p = some "query") :
    (processParameter st p).query =
      some (assocSet (st.query.getD []) (jsName p) (Json.obj [("$", Json.str (jsName p))])) := by
  simp only [processParameter, hs, hin]
  split_ifs <;> rfl

/-- Any other parameter leaves the query record unchanged. -/
theorem pp_query_neg (st : ParamState) (p : Json) (h : ¬ isQueryParam p) :
    (processParameter st p).query = st.query := by
  unfold processParameter
  rcases hs : p.get? "schema" with _ | sch
  · rfl
  · cases sch
    case obj sfields =>
      have hin : ¬ paramIn p = some "query" := fun hq => h ⟨⟨sfields, hs⟩, hq⟩
      simp only [hin, if_false]
      split_ifs <;> rfl
    all_goals rfl

/-- The query record stays undefined exactly while no query parameter was
processed. -/
theorem pp_query_none_iff (st : ParamState) (p : Json) :
    ((processParameter st p).query = none ↔ st.query = none ∧ ¬ isQueryParam p) := by
  by_cases hq : isQueryParam p
  · rcases hq with ⟨⟨sfields, hs⟩, hin⟩
    rw [pp_query_pos st p sfields hs hin]
    simp [show isQueryParam p from ⟨⟨sfields, hs⟩, hin⟩]
  · rw [pp_query_neg st p hq]
    simp [hq]

/-- One step of the query-key accumulation. -/
theorem pp_query_keys (st : ParamState) (p : Json) (k : String) :
    (k ∈ queryKeys (processParameter st p) ↔
      k ∈ queryKeys st ∨ (isQueryParam p ∧ jsName p = k)) := by
  by_cases hq : isQueryParam p
  · rcases hq with ⟨⟨sfields, hs⟩, hin⟩
    rw [show queryKeys (processParameter st p) =
        (assocSet (st.query.getD []) (jsName p) (Json.obj [("$", Json.str (jsName p))])).map
          Prod.fst from by
      rw [queryKeys, pp_query_pos st p sfields hs hin]
      rfl]
    rw [assocSet_keys]
    constructor
    · rintro (h | h)
      · exact Or.inl h
      · exact Or.inr ⟨⟨⟨sfields, hs⟩, hin⟩, h.symm⟩
    · rintro (h | ⟨_, h⟩)
      · exact Or.inl h
      · exact Or.inr h.symm
  · rw [show queryKeys (processParameter st p) = queryKeys st from by
      rw [queryKeys, pp_query_neg st p hq]
      rfl]
    simp [hq]

/-- The query record over the whole parameter loop. -/
theorem fold_query_none (ps : List Json) :
    ∀ st : ParamState, ((ps.foldl processParameter st).query = none ↔
      st.query = none ∧ ∀ p ∈ ps, ¬ isQueryParam p) := by
  induction ps with
  | nil => intro st; simp
  | cons hd tl ih =>
    intro st
    rw [List.foldl_cons, ih, pp_query_none_iff]
    constructor
    · rintro ⟨⟨h1, h2⟩, h3⟩
      refine ⟨h1, fun p hp => ?_⟩
      rcases List.mem_cons.mp hp with rfl | hp
      exacts [h2, h3 p hp]
    · rintro ⟨h1, h2⟩
      exact ⟨⟨h1, h2 hd (List.mem_cons_self hd tl)⟩,
        fun p hp => h2 p (List.mem_cons_of_mem hd hp)⟩

/-- The query keys over the whole parameter loop. -/
theorem fold_query_keys (ps : List Json) :
    ∀ (st : ParamState) (k : String),
      (k ∈ queryKeys (ps.foldl processParameter st) ↔
        k ∈ queryKeys st ∨ ∃ p ∈ ps, isQueryParam p ∧ jsName p = k) := by
  induction ps with
  | nil => intro st k; simp
  | cons hd tl ih =>
    intro st k
    rw [List.foldl_cons, ih, pp_query_keys]
    constructor
    · rintro ((h | h) | ⟨p, hp, hq⟩)
      · exact Or.inl h
      · exact Or.inr ⟨hd, List.mem_cons_self hd tl, h⟩
      · exact Or.inr ⟨p, List.mem_cons_of_mem hd hp, hq⟩
    · rintro (h | ⟨p, hp, hq⟩)
      · exact Or.inl (Or.inl h)
      · rcases List.mem_cons.mp hp with rfl | hp
        · exact Or.inl (Or.inr hq)
        · exact Or.inr ⟨p, hp, hq⟩

/-- A parameter with an object schema records itself in the parameter
index. -/
theorem pp_paramIndex_pos (st : ParamState) (p : Json) (sfields : List (String × Json))
    (hs : p.get? "schema" = some (Json.obj sfields)) :
    (processParameter st p).paramIndex =
      assocSet st.paramIndex (jsName p) st.schemaRoots.length := by
  simp only [processParameter, hs]
  split_ifs <;> rfl

/-- The parameter index only grows. -/
theorem pp_paramIndex_mono (st : ParamState) (p : Json) (k : String)
    (h : k ∈ st.paramIndex.map Prod.fst) :
    k ∈ (processParameter st p).paramIndex.map Prod.fst := by
  by_cases hsch : hasObjSchema p
  · rcases hsch with ⟨sfields, hs⟩
    rw [pp_paramIndex_pos st p sfields hs, assocSet_keys]
    exact Or.inl h
  · rw [pp_noSchema st p hsch]
    exact h

/-- The parameter index only grows along the loop. -/
theorem fold_paramIndex_mono (ps : List Json) :
    ∀ (st : ParamState) (k : String), k ∈ st.paramIndex.map Prod.fst →
      k ∈ (ps.foldl processParameter st).paramIndex.map Prod.fst := by
  induction ps with
  | nil => intro st k h; exact h
  | cons hd tl ih =>
    intro st k h
    rw [List.foldl_cons]
    exact ih _ k (pp_paramIndex_mono st hd k h)

/-- Every parameter with an object schema ends in the parameter index. -/
theorem fold_paramIndex_mem (ps : List Json) :
    ∀ (st : ParamState) (p : Json), p ∈ ps → hasObjSchema p →
      jsName p ∈ (ps.foldl processParameter st).paramIndex.map Prod.fst := by
  induction ps with
  | nil => intro st p hp; simp at hp
  | cons hd tl ih =>
    intro st p hp hsch
    rcases List.mem_cons.mp hp with rfl | hp
    · rcases hsch with ⟨sfields, hs⟩
      rw [List.foldl_cons]
      apply fold_paramIndex_mono
      rw [pp_paramIndex_pos st p sfields hs, assocSet_keys]
      exact Or.inr rfl
    · rw [List.foldl_cons]
      exact ih _ p hp hsch

/-- The required record after one parameter with an object schema. -/
theorem pp_required_eq (st : ParamState) (p : Json) (sfields : List (String × Json))
    (hs : p.get? "schema" = some (Json.obj sfields)) :
    (processParameter st p).required =
      (if p.get? "required" = some (Json.bool true) then
        some (st.required.getD [] ++ [jsName p])
      else st.required) := by
  simp only [processParameter, hs]
  split_ifs <;> rfl

/-- The required list only grows. -/
theorem pp_required_mono (st : ParamState) (p : Json) (k : String)
    (h : k ∈ st.required.getD []) :
    k ∈ (processParameter st p).required.getD [] := by
  by_cases hsch : hasObjSchema p
  · rcases hsch with ⟨sfields, hs⟩
    rw [pp_required_eq st p sfields hs]
    split_ifs
    · simpa using Or.inl h
    · exact h
  · rw [pp_noSchema st p hsch]
    exact h

/-- The required list only grows along the loop. -/
theorem fold_required_mono (ps : List Json) :
    ∀ (st : ParamState) (k : String), k ∈ st.required.getD [] →
      k ∈ (ps.foldl processParameter st).required.getD [] := by
  induction ps with
  | nil => intro st k h; exact h
  | cons hd tl ih =>
    intro st k h
    rw [List.foldl_cons]
    exact ih _ k (pp_required_mono st hd k h)

/-- Every required parameter with an object schema ends in the required
list. -/
theorem fold_required_mem (ps : List Json) :
    ∀ (st : ParamState) (p : Json), p ∈ ps → hasObjSchema p →
      p.get? "required" = some (Json.bool true) →
      jsName p ∈ (ps.foldl processParameter st).required.getD [] := by
  induction ps with
  | nil => intro st p hp; simp at hp
  | cons hd tl ih =>
    intro st p hp hsch hreq
    rcases List.mem_cons.mp hp with rfl | hp
    · rcases hsch with ⟨sfields, hs⟩
      rw [List.foldl_cons]
      apply fold_required_mono
      rw [pp_required_eq st p sfields hs, if_pos hreq]
      simp
    · rw [List.foldl_cons]
      exact ih _ p hp hsch hreq

/-- The body phase leaves the query record unchanged. -/
theorem pb_query (st : ParamState) (rb : Option Json) :
    (processBody st rb).query = st.query := by
  cases rb with
  | none => rfl
  | some rb =>
    simp only [processBody]
    rcases hsel : selectBodyContent (rb.get? "description")
        (((rb.get? "content").getD Json.null).fields) with _ | ec
    · rfl
    · rcases ec with ⟨enc, cs⟩
      split_ifs <;> rfl

/-- The body phase only grows the parameter index. -/
theorem pb_paramIndex_mono (st : ParamState) (rb : Option Json) (k : String)
    (h : k ∈ st.paramIndex.map Prod.fst) :
    k ∈ (processBody st rb).paramIndex.map Prod.fst := by
  cases rb with
  | none => exact h
  | some rb =>
    simp only [processBody]
    rcases hsel : selectBodyContent (rb.get? "description")
        (((rb.get? "content").getD Json.null).fields) with _ | ec
    · exact h
    · rcases ec with ⟨enc, cs⟩
      split_ifs <;> exact (assocSet_keys _ _ _ k).mpr (Or.inl h)

/-- The body phase only grows the required list. -/
theorem pb_required_mono (st : ParamState) (rb : Option Json) (k : String)
    (h : k ∈ st.required.getD []) :
    k ∈ (processBody st rb).required.getD [] := by
  cases rb with
  | none => exact h
  | some rb =>
    simp only [processBody]
    rcases hsel : selectBodyContent (rb.get? "description")
        (((rb.get? "content").getD Json.null).fields) with _ | ec
    · exact h
    · rcases ec with ⟨enc, cs⟩
      split_ifs
      · simpa using Or.inl h
      · exact h

/-- The shape of every successfully generated handle request. -/
theorem generateRequest_ok_shape
    (expandUri : String → (String → Option Json) → String)
    (treeShake : List Json → List Json × Option Json)
    (op : OperationModel) (optServer : Option Json) (r : HandleRequest)
    (hok : generateApiHandleRequest expandUri treeShake op optServer = Except.ok r) :
    ∃ server,
      selectServer optServer op.servers op.pathItemServers op.apiServers = Except.ok server ∧
      r.parameters = assembleParameters
          (buildProperties (requestFullState op).paramIndex
            (treeShake (requestFullState op).schemaRoots).1)
          (requestFullState op).required (treeShake (requestFullState op).schemaRoots).2 ∧
      r.request = assembleRequest op.method
          (buildUrl (expandServerUrl expandUri server) op.path (requestFullState op).query)
          (requestFullState op).headers (requestFullState op).body := by
  unfold generateApiHandleRequest at hok
  rcases hsel : selectServer optServer op.servers op.pathItemServers op.apiServers with e | server <;>
    rw [hsel] at hok
  · exact absurd hok (fun h => Except.noConfusion h)
  · injection hok with hr
    exact ⟨server, rfl, by rw [← hr], by rw [← hr]⟩

/-- The assembled parameters schema exposes the properties record. -/
theorem assembleParameters_properties (ps : List (String × Json)) (rs : Option (List String))
    (ds : Option Json) :
    (assembleParameters (some ps) rs ds).get? "properties" = some (Json.obj ps) := by
  cases rs <;> cases ds <;> rfl

/-- The assembled parameters schema exposes the required list. -/
theorem assembleParameters_required (ps : Option (List (String × Json))) (rs : List String)
    (ds : Option Json) :
    (assembleParameters ps (some rs) ds).get? "required" = some (Json.arr (rs.map Json.str)) := by
  cases ps <;> cases ds <;> rfl

/-- The properties record exists for a nonempty parameter index and keeps
its keys. -/
theorem buildProperties_keys (paramIndex : List (String × Nat)) (tsRoots : List Json)
    (hne : paramIndex ≠ []) :
    ∃ props, buildProperties paramIndex tsRoots = some props ∧
      props.map Prod.fst = paramIndex.map Prod.fst := by
  cases paramIndex with
  | nil => exact absurd rfl hne
  | cons e pi => exact ⟨_, rfl, by simp⟩

/-- Claim C8: the generated request URL is the expanded server URL plus the
operation path; when the operation has query-located parameters with object
schemas, a URI-template query expansion listing exactly those parameter
names is appended — associative (`{&...}`) when the URL already has a query
component, form-style (`{?...}`) otherwise — and no expansion is appended
when there are none. -/
theorem url_query_expansion
    (expandUri : String → (String → Option Json) → String)
    (treeShake : List Json → List Json × Option Json)
    (op : OperationModel) (optServer : Option Json) (r : HandleRequest)
    (hok : generateApiHandleRequest expandUri treeShake op optServer = Except.ok r) :
    ((requestParamState op).query = none ↔ ∀ p ∈ op.allParams, ¬ isQueryParam p) ∧
    (∀ k, k ∈ queryKeys (requestParamState op) ↔
      ∃ p ∈ op.allParams, isQueryParam p ∧ jsName p = k) ∧
    (∃ server,
      selectServer optServer op.servers op.pathItemServers op.apiServers = Except.ok server ∧
      r.request.get? "url" = some (Json.obj [("$uri", Json.str
        (buildUrl (expandServerUrl expandUri server) op.path (requestParamState op).query))])) ∧
    (∀ serverUrl, buildUrl serverUrl op.path none = serverUrl ++ op.path) ∧
    (∀ serverUrl q, buildUrl serverUrl op.path (some q) =
      (if (serverUrl ++ op.path).data.contains '?' then
        serverUrl ++ op.path ++ "\x7b&" ++ String.intercalate "," (q.map Prod.fst) ++ "\x7d"
      else
        serverUrl ++ op.path ++ "\x7b?" ++ String.intercalate "," (q.map Prod.fst) ++ "\x7d")) := by
  have hfq : (requestFullState op).query = (requestParamState op).query := by
    unfold requestFullState
    exact pb_query _ _
  refine ⟨?_, ?_, ?_, fun serverUrl => rfl, fun serverUrl q => rfl⟩
  · have h := fold_query_none op.allParams initParamState
    simpa [requestParamState, initParamState] using h
  · intro k
    have h := fold_query_keys op.allParams initParamState k
    simpa [requestParamState, queryKeys, initParamState] using h
  · obtain ⟨server, hsel, _, hreq⟩ :=
      generateRequest_ok_shape expandUri treeShake op optServer r hok
    refine ⟨server, hsel, ?_⟩
    rw [hreq, ← hfq, assembleRequest_url]

/-- Claim C8 witness: one query parameter named `a` on a concrete
operation. -/
theorem url_query_expansion_witness :
    "a" ∈ queryKeys (requestParamState exOp8) ↔
      ∃ p ∈ exOp8.allParams, isQueryParam p ∧ jsName p = "a" :=
  (url_query_expansion expandIdent treeShakeIdent exOp8 none exRes8 rfl).2.1 "a"

/-- Claim C9: cookie-located parameters with object-valued schemas are
collected into the parameters JSON Schema (their name keys appear among the
properties, and required ones enter the required list) but no cookie slot
is ever emitted: the generated request object holds only the keys `method`,
`url`, and optionally `headers` and `body`. -/
theorem cookie_params_collected_not_emitted
    (expandUri : String → (String → Option Json) → String)
    (treeShake : List Json → List Json × Option Json)
    (op : OperationModel) (optServer : Option Json) (r : HandleRequest) (p : Json)
    (hok : generateApiHandleRequest expandUri treeShake op optServer = Except.ok r)
    (hp : p ∈ op.allParams) (hschema : hasObjSchema p)
    (_hcookie : paramIn p = some "cookie") :
    (∃ props, r.parameters.get? "properties" = some (Json.obj props) ∧
      jsName p ∈ props.map Prod.fst) ∧
    (p.get? "required" = some (Json.bool true) →
      ∃ reqs : List String,
        r.parameters.get? "required" = some (Json.arr (reqs.map Json.str)) ∧
        jsName p ∈ reqs) ∧
    (∀ k ∈ r.request.fields.map Prod.fst,
      k = "method" ∨ k = "url" ∨ k = "headers" ∨ k = "body") ∧
    "cookies" ∉ r.request.fields.map Prod.fst := by
  obtain ⟨server, _, hparams, hreq⟩ :=
    generateRequest_ok_shape expandUri treeShake op optServer r hok
  have hkey : jsName p ∈ (requestFullState op).paramIndex.map Prod.fst := by
    unfold requestFullState
    exact pb_paramIndex_mono _ _ _ (fold_paramIndex_mem op.allParams initParamState p hp hschema)
  have hne : (requestFullState op).paramIndex ≠ [] := by
    intro h0
    rw [h0] at hkey
    simp at hkey
  obtain ⟨props, hbp, hpk⟩ :=
    buildProperties_keys (requestFullState op).paramIndex
      (treeShake (requestFullState op).schemaRoots).1 hne
  refine ⟨⟨props, ?_, ?_⟩, ?_, ?_, ?_⟩
  · rw [hparams, hbp]
    exact assembleParameters_properties props _ _
  · rw [hpk]
    exact hkey
  · intro hrequired
    have hmem : jsName p ∈ (requestFullState op).required.getD [] := by
      unfold requestFullState
      exact pb_required_mono _ _ _
        (fold_required_mem op.allParams initParamState p hp hschema hrequired)
    rcases hr : (requestFullState op).required with _ | rs
    · rw [hr] at hmem
      simp at hmem
    · refine ⟨rs, ?_, ?_⟩
      · rw [hparams, hr]
        exact assembleParameters_required _ rs _
      · rw [hr] at hmem
        simpa using hmem
  · rw [hreq]
    exact assembleRequest_keys _ _ _ _
  · rw [hreq]
    intro hc
    rcases assembleRequest_keys _ _ _ _ "cookies" hc with h | h | h | h <;>
      exact absurd h (by decide)

/-- Claim C9 witness: the concrete cookie-parameter operation. -/
theorem cookie_params_witness :
    ∃ props, exRes9.parameters.get? "properties" = some (Json.obj props) ∧
      jsName exParamCookie ∈ props.map Prod.fst :=
  (cookie_params_collected_not_emitted expandIdent treeShakeIdent exOp9 none exRes9 exParamCookie
    rfl (by decide) ⟨[("type", Json.str "string")], rfl⟩ rfl).1

end ToolApi
